/-
Verification of the zerokv key-value abstraction (adapters for the badger
and pebble engines) against its natural-language specification.

The development shallowly embeds the two adapter packages
(badgerdb/badgerdb.go and the pebbledb package): each Go method becomes a
Lean function over an explicit state.  Keys and values are byte lists; Go
byte arithmetic wraps mod 256 where it matters.  A Go call that can panic
is modelled with an explicit outcome constructor rather than a partial
function.  The third-party engines (badger, pebble) are outside the
repository; they are consumed only through the primitives listed in the
spec (set/get/delete, write-batch set/delete/flush, iterator
first/next/valid/key/value) and are modelled here as small state machines
over an association-list store, with divergences (error-on-reuse versus
abort-on-reuse for batches) taken from the spec's own description.
-/
import Mathlib

/-- Byte values carried by keys and values; Go bytes, kept as Nat with
explicit mod-256 arithmetic where the code wraps. -/
abbrev Byte := Nat

/-- Go `[]byte` contents. -/
abbrev Bytes := List Byte

/-- Error values that flow through the adapters: the context errors, the
NotFound class, the engine's batch-reuse error, and opaque engine faults. -/
inductive GoError where
  | canceled
  | deadlineExceeded
  | notFound
  | commitAfterFinish
  | engineFault (code : Nat)
deriving DecidableEq

/-- A Go context, reduced to what the adapters read from it: `ctx.Err()`,
which is `none` for a live context and `some e` once cancelled or past
its deadline. -/
abbrev Ctx := Option GoError

/-- Result of a Go `(value []byte, err error)` return. -/
inductive GetResult where
  | ok (v : Bytes)
  | fail (e : GoError)
deriving DecidableEq

/-- Outcome of a Go call that may return a value, return an error, or
abort the calling goroutine (a native panic). -/
inductive Outcome (α : Type) where
  | ok (a : α)
  | fail (e : GoError)
  | panicked
deriving DecidableEq

/-- Result of the adapters' `Error()` method: the Go code indexes
`err[len(err)-1]`, which aborts on an empty slice, so the result is
either a returned error value or a panic. -/
inductive ErrorCall where
  | returned (e : GoError)
  | panicked
deriving DecidableEq

/-- The engine-side key/value table, shared by both engine models:
an association list from keys to values. -/
abbrev Store := List (Bytes × Bytes)

/-- Engine primitive `set(key, value)`: insert or overwrite. -/
def engineSet : Store → Bytes → Bytes → Store
  | [], k, v => [(k, v)]
  | (k0, v0) :: rest, k, v =>
      if k0 = k then (k, v) :: rest else (k0, v0) :: engineSet rest k v

/-- Engine primitive `get(key)`: `none` is the engine's NotFound signal. -/
def engineGet : Store → Bytes → Option Bytes
  | [], _ => none
  | (k0, v0) :: rest, k => if k0 = k then some v0 else engineGet rest k

/-- Engine primitive `delete(key)`: removing an absent key is a no-op. -/
def engineDel : Store → Bytes → Store
  | [], _ => []
  | (k0, v0) :: rest, k =>
      if k0 = k then engineDel rest k else (k0, v0) :: engineDel rest k

theorem engineGet_set_self (s : Store) (k v : Bytes) :
    engineGet (engineSet s k v) k = some v := by
  induction s with
  | nil => simp [engineSet, engineGet]
  | cons hd tl ih =>
      obtain ⟨k0, v0⟩ := hd
      by_cases h : k0 = k
      · simp [engineSet, engineGet, h]
      · simp [engineSet, engineGet, h, ih]

theorem engineGet_set_ne (s : Store) (k k' v : Bytes) (h : k' ≠ k) :
    engineGet (engineSet s k v) k' = engineGet s k' := by
  induction s with
  | nil => simp [engineSet, engineGet, Ne.symm h]
  | cons hd tl ih =>
      obtain ⟨k0, v0⟩ := hd
      by_cases hk : k0 = k
      · subst hk
        simp [engineSet, engineGet, Ne.symm h]
      · simp [engineSet, engineGet, hk, ih]

/-- Byte-lexicographic strict order on keys, the engines' native key
order. -/
def bytesLt : Bytes → Bytes → Bool
  | [], [] => false
  | [], _ :: _ => true
  | _ :: _, [] => false
  | a :: as, b :: bs => if a < b then true else if b < a then false else bytesLt as bs

/-- Byte-lexicographic non-strict order on keys. -/
def bytesLe (x y : Bytes) : Bool := !(bytesLt y x)

/-- Whether `p` is a byte-wise initial segment of `k` (the badger engine's
key-range restriction). -/
def hasPfx : Bytes → Bytes → Bool
  | [], _ => true
  | _ :: _, [] => false
  | a :: as, b :: bs => a == b && hasPfx as bs

/-- Insertion of an entry into a key-sorted list, used to model the
engines yielding entries in native key order. -/
def sortedInsert (e : Bytes × Bytes) : List (Bytes × Bytes) → List (Bytes × Bytes)
  | [] => [e]
  | f :: rest => if bytesLe e.1 f.1 then e :: f :: rest else f :: sortedInsert e rest

/-- Entries of a store in the engine's native byte-lexicographic key
order. -/
def sortedEntries : Store → List (Bytes × Bytes)
  | [] => []
  | e :: rest => sortedInsert e (sortedEntries rest)

/- ## Badger adapter (badgerdb/badgerdb.go) -/

/-- The `badgerDB` struct: one open handle to a badger store.  The engine
handle is modelled by the store it manages; the claims settled here are
about an open Core, so the closed-handle state is not part of this
model. -/
structure BadgerDB where
  store : Store
deriving DecidableEq

/-- One queued write-batch operation held by an engine write batch. -/
inductive BatchOp where
  | put (k v : Bytes)
  | del (k : Bytes)
deriving DecidableEq

/-- The `badgerBatch` struct wrapping the badger engine's WriteBatch
handle.  Modelled from the spec: the engine's write batch queues
operations locally and applies them on flush; after the flush finishes
the handle refuses further use with an error (the spec describes one
engine returning an error on batch reuse and the other aborting; the
badger engine is the erroring one). -/
structure BadgerBatch where
  ops : List BatchOp
  finished : Bool
deriving DecidableEq

/-- `badgerDB.Put`: delegates to `db.Update(txn.Set(key, value))` without
reading the context first (no `ctx.Err()` check appears in the source). -/
def badgerDBPut (_ctx : Ctx) (b : BadgerDB) (key value : Bytes) :
    BadgerDB × Option GoError :=
  ({ store := engineSet b.store key value }, none)

/-- `badgerDB.Get`: checks `ctx.Err()` first, then reads the key inside a
view transaction; the engine's NotFound becomes the returned error and a
found value is materialized with `append([]byte{}, val...)`, an
independent copy (content-level model; buffer identity is modelled
separately below). -/
def badgerDBGet (ctx : Ctx) (b : BadgerDB) (key : Bytes) : GetResult :=
  match ctx with
  | some e => .fail e
  | none =>
      match engineGet b.store key with
      | none => .fail .notFound
      | some v => .ok v

/-- `badgerDB.Delete`: checks `ctx.Err()` first, then deletes inside an
update transaction. -/
def badgerDBDelete (ctx : Ctx) (b : BadgerDB) (key : Bytes) :
    BadgerDB × Option GoError :=
  match ctx with
  | some e => (b, some e)
  | none => ({ store := engineDel b.store key }, none)

/-- `badgerDB.Batch`: returns a fresh wrapper around a new engine write
batch. -/
def badgerDBBatch (_b : BadgerDB) : BadgerBatch :=
  { ops := [], finished := false }

/-- `badgerBatch.Put`: delegates to the engine's `WriteBatch.Set` with no
adapter-side guard; the engine queues the entry while the batch is live
and returns its reuse error once finished. -/
def badgerBatchPut (b : BadgerBatch) (key value : Bytes) :
    BadgerBatch × Option GoError :=
  if b.finished then (b, some .commitAfterFinish)
  else ({ ops := b.ops ++ [.put key value], finished := false }, none)

/-- `badgerBatch.Delete`: delegates to the engine's `WriteBatch.Delete`
with no adapter-side guard. -/
def badgerBatchDelete (b : BadgerBatch) (key : Bytes) :
    BadgerBatch × Option GoError :=
  if b.finished then (b, some .commitAfterFinish)
  else ({ ops := b.ops ++ [.del key], finished := false }, none)

/-- Applying a queue of batch operations to the engine store, in queue
order, as a flush/commit does. -/
def applyOps : Store → List BatchOp → Store
  | s, [] => s
  | s, .put k v :: rest => applyOps (engineSet s k v) rest
  | s, .del k :: rest => applyOps (engineDel s k) rest

/-- `badgerBatch.Commit`: checks `ctx.Err()`, then delegates to the
engine's `Flush`, which atomically applies the queued operations and
marks the batch finished; a second flush hits the engine's reuse
error. -/
def badgerBatchCommit (ctx : Ctx) (b : BadgerBatch) (db : BadgerDB) :
    BadgerBatch × BadgerDB × Option GoError :=
  match ctx with
  | some e => (b, db, some e)
  | none =>
      if b.finished then (b, db, some .commitAfterFinish)
      else ({ b with finished := true },
            { store := applyOps db.store b.ops }, none)

/-- Value retrieval from the engine cursor can fail (a backend decode
fault), so a positioned entry carries either bytes or a fault. -/
inductive ValRes where
  | good (v : Bytes)
  | bad (e : GoError)
deriving DecidableEq

/-- The `badgerIteractor` struct: the engine cursor (its in-range entries
in native order plus a position, `none` while unpositioned) and the
adapter's own `started`, `valid` and accumulated `err` fields. -/
structure BadgerIteractor where
  entries : List (Bytes × ValRes)
  pos : Option Nat
  started : Bool
  valid : Bool
  err : List GoError
deriving DecidableEq

/-- `badgerDB.Scan`: opens a read transaction and an engine iterator
restricted to keys carrying the prefix (the badger engine's own Prefix
option; this adapter derives no upper bound itself), wrapped with the
zero values `started = false`, `valid = false`, no recorded errors. -/
def badgerDBScan (b : BadgerDB) (pfx : Bytes) : BadgerIteractor :=
  { entries := (sortedEntries b.store).filterMap
      (fun e => if hasPfx pfx e.1 then some (e.1, ValRes.good e.2) else none),
    pos := none, started := false, valid := false, err := [] }

/-- `badgerIteractor.Next`: rewinds the cursor on first use, advances it
afterwards, records the cursor's validity in `valid` and returns it. -/
def badgerIteractorNext (it : BadgerIteractor) : BadgerIteractor × Bool :=
  let it1 :=
    if !it.started then { it with pos := some 0, started := true }
    else { it with pos := some ((it.pos.getD 0) + 1) }
  let v := decide (it1.pos.getD 0 < it1.entries.length)
  ({ it1 with valid := v }, v)

/-- `badgerIteractor.Key`: nil unless `valid`; otherwise a copy of the
cursor's current key. -/
def badgerIteractorKey (it : BadgerIteractor) : Option Bytes :=
  if !it.valid then none
  else (it.entries.get? (it.pos.getD 0)).map Prod.fst

/-- `badgerIteractor.Value`: nil unless `valid`; otherwise the cursor
value, or — when the engine's ValueCopy faults — the fault is appended to
`err` and the empty slice is returned. -/
def badgerIteractorValue (it : BadgerIteractor) : BadgerIteractor × Option Bytes :=
  if !it.valid then (it, none)
  else
    match (it.entries.get? (it.pos.getD 0)).map Prod.snd with
    | none => (it, none)
    | some (.good v) => (it, some v)
    | some (.bad e) => ({ it with err := it.err ++ [e] }, some [])

/-- `badgerIteractor.Error`: indexes `err[len(err)-1]`, aborting with an
index-out-of-range panic when no error has been recorded and returning
the most recent one otherwise. -/
def badgerIteractorError (it : BadgerIteractor) : ErrorCall :=
  match it.err.getLast? with
  | none => .panicked
  | some e => .returned e

/- ## Pebble adapter (the pebbledb package) -/

/-- The `pebbleDB` struct: one open handle to a pebble store.  `iterFail`
models the engine-side condition under which `pebble.DB.NewIter` returns
a non-nil error (the engine's iterator constructor is fallible; its
failure cause is opaque to the adapter). -/
structure PebbleDB where
  store : Store
  iterFail : Bool
deriving DecidableEq

/-- The `pebbleBatch` struct wrapping the pebble engine's Batch handle.
Modelled from the spec: the engine's batch queues operations locally and
applies them on commit; once committed the native handle aborts the
calling unit of execution on any further use (the spec describes one
engine returning an error on batch reuse and the other panicking; the
pebble engine is the aborting one, and the adapter adds no guard of its
own). -/
structure PebbleBatch where
  ops : List BatchOp
  committed : Bool
deriving DecidableEq

/-- `pebbleDB.Put`: delegates to `db.Set(key, data, Sync)` without
reading the context. -/
def pebbleDBPut (_ctx : Ctx) (p : PebbleDB) (key data : Bytes) :
    PebbleDB × Option GoError :=
  ({ p with store := engineSet p.store key data }, none)

/-- `pebbleDB.Get`: delegates to `db.Get(key)` without reading the
context; on success it returns the engine's value slice and then closes
the closer (content-level model; buffer identity is modelled separately
below). -/
def pebbleDBGet (_ctx : Ctx) (p : PebbleDB) (key : Bytes) : GetResult :=
  match engineGet p.store key with
  | none => .fail .notFound
  | some v => .ok v

/-- `pebbleDB.Delete`: delegates to `db.Delete(key, Sync)` without
reading the context. -/
def pebbleDBDelete (_ctx : Ctx) (p : PebbleDB) (key : Bytes) :
    PebbleDB × Option GoError :=
  ({ p with store := engineDel p.store key }, none)

/-- `pebbleDB.Batch`: returns a fresh wrapper around a new engine
batch. -/
def pebbleDBBatch (_p : PebbleDB) : PebbleBatch :=
  { ops := [], committed := false }

/-- `pebbleBatch.Put`: delegates to the engine's `Batch.Set` with no
adapter-side guard; the native call aborts when the batch is already
committed. -/
def pebbleBatchPut (b : PebbleBatch) (key data : Bytes) : Outcome PebbleBatch :=
  if b.committed then .panicked
  else .ok { ops := b.ops ++ [.put key data], committed := false }

/-- `pebbleBatch.Delete`: delegates to the engine's `Batch.Delete` with
no adapter-side guard; the native call aborts when the batch is already
committed. -/
def pebbleBatchDelete (b : PebbleBatch) (key : Bytes) : Outcome PebbleBatch :=
  if b.committed then .panicked
  else .ok { ops := b.ops ++ [.del key], committed := false }

/-- `pebbleBatch.Commit`: delegates to the engine's `Batch.Commit(Sync)`
without reading the context; the commit atomically applies the queued
operations, and a second commit hits the native abort. -/
def pebbleBatchCommit (_ctx : Ctx) (b : PebbleBatch) (db : PebbleDB) :
    Outcome (PebbleBatch × PebbleDB) :=
  if b.committed then .panicked
  else .ok ({ b with committed := true },
            { db with store := applyOps db.store b.ops })

/-- The `pebbleIteractor` struct: the engine cursor (its in-bound entries
in native order plus a position) and the adapter's `started`, `valid` and
accumulated `err` fields. -/
structure PebbleIteractor where
  entries : List (Bytes × ValRes)
  pos : Option Nat
  started : Bool
  valid : Bool
  err : List GoError
deriving DecidableEq

/-- Result of `pebbleDB.Scan`: the Go function can abort while computing
the upper bound (index out of range), return a nil interface value when
the engine's iterator constructor fails, or return an iterator. -/
inductive ScanResult where
  | panicked
  | nilIterator
  | iter (it : PebbleIteractor)
deriving DecidableEq

/-- Go's `upbound[len(upbound)-1]++` on a copy of the prefix: increments
the last byte, wrapping mod 256. -/
def incLast : Bytes → Bytes
  | [] => []
  | [b] => [(b + 1) % 256]
  | b :: rest => b :: incLast rest

/-- Keys the engine iterator yields for bounds `[lo, hi)`: the store's
entries, in native key order, with `lo ≤ key < hi`
byte-lexicographically. -/
def pebbleIterEntries (s : Store) (lo hi : Bytes) : List (Bytes × ValRes) :=
  (sortedEntries s).filterMap
    (fun e => if bytesLe lo e.1 && bytesLt e.1 hi then some (e.1, ValRes.good e.2) else none)

/-- `pebbleDB.Scan`: copies the prefix into `upbound` and increments its
last byte — indexing position `len-1` of the empty slice, which aborts
when the prefix is empty — then asks the engine for an iterator over
`[prefix, upbound)`, returning nil when that constructor errors and the
wrapped iterator otherwise. -/
def pebbleDBScan (p : PebbleDB) (pfx : Bytes) : ScanResult :=
  match pfx with
  | [] => .panicked
  | _ =>
      let upbound := incLast pfx
      if p.iterFail then .nilIterator
      else .iter { entries := pebbleIterEntries p.store pfx upbound,
                   pos := none, started := false, valid := false, err := [] }

/-- `pebbleIteractor.Next`: `First()` on first use, `Next()` afterwards;
records the engine's validity in `valid` and returns it. -/
def pebbleIteractorNext (it : PebbleIteractor) : PebbleIteractor × Bool :=
  let it1 :=
    if !it.started then { it with pos := some 0, started := true }
    else { it with pos := some ((it.pos.getD 0) + 1) }
  let v := decide (it1.pos.getD 0 < it1.entries.length)
  ({ it1 with valid := v }, v)

/-- `pebbleIteractor.Key`: nil unless `valid`; otherwise the cursor's
current key. -/
def pebbleIteractorKey (it : PebbleIteractor) : Option Bytes :=
  if !it.valid then none
  else (it.entries.get? (it.pos.getD 0)).map Prod.fst

/-- `pebbleIteractor.Value`: nil unless `valid`; otherwise
`ValueAndErr()`, appending any fault to `err` and returning nil on
fault. -/
def pebbleIteractorValue (it : PebbleIteractor) : PebbleIteractor × Option Bytes :=
  if !it.valid then (it, none)
  else
    match (it.entries.get? (it.pos.getD 0)).map Prod.snd with
    | none => (it, none)
    | some (.good v) => (it, some v)
    | some (.bad e) => ({ it with err := it.err ++ [e] }, none)

/-- `pebbleIteractor.Release`: clears `valid` and closes the engine
cursor. -/
def pebbleIteractorRelease (it : PebbleIteractor) : PebbleIteractor :=
  { it with valid := false }

/-- `pebbleIteractor.Error`: indexes `err[len(err)-1]`, aborting with an
index-out-of-range panic when no error has been recorded and returning
the most recent one otherwise. -/
def pebbleIteractorError (it : PebbleIteractor) : ErrorCall :=
  match it.err.getLast? with
  | none => .panicked
  | some e => .returned e

/- ## Buffer-identity model for Get (independent-copy obligation)

Both Get implementations are re-expressed at the level of buffer
references: the engine keeps its values in heap buffers it owns, and a
Get returns a reference to some buffer.  The badger adapter's
`data = append([]byte{}, val...)` allocates a fresh buffer; the pebble
adapter returns the engine's own buffer and then runs the deferred
`closer.Close()`, releasing the engine's retention guarantee, so later
engine activity may rewrite that buffer. -/

/-- A heap of byte buffers; a buffer reference is an index into it. -/
structure Heap where
  bufs : List Bytes
deriving DecidableEq

/-- Reading the buffer a reference designates. -/
def heapRead (h : Heap) (i : Nat) : Bytes := h.bufs.getD i []

/-- The engine-side table at the buffer level: keys mapped to the
engine-owned buffer holding their value. -/
structure EngineKV where
  tbl : List (Bytes × Nat)
deriving DecidableEq

/-- Buffer-level engine `get`: the engine-owned buffer for a key. -/
def engineRef : List (Bytes × Nat) → Bytes → Option Nat
  | [], _ => none
  | (k0, i) :: rest, k => if k0 = k then some i else engineRef rest k

/-- The references the engine owns (its value buffers). -/
def engineOwnedRefs (e : EngineKV) : List Nat := e.tbl.map Prod.snd

/-- Later engine activity: the engine may rewrite a buffer it owns
(compaction, block-cache reuse after the closer is closed); it never
touches buffers it does not own. -/
def engineRewrite (h : Heap) (e : EngineKV) (i : Nat) (v : Bytes) : Heap :=
  if (engineOwnedRefs e).contains i then { bufs := h.bufs.set i v } else h

/-- `badgerDB.Get` at the buffer level: the found value is copied into a
freshly allocated buffer (`append([]byte{}, val...)`) and the reference
to that fresh buffer is returned. -/
def badgerGetRef (h : Heap) (e : EngineKV) (k : Bytes) : Heap × Option Nat :=
  match engineRef e.tbl k with
  | none => (h, none)
  | some i => ({ bufs := h.bufs ++ [heapRead h i] }, some h.bufs.length)

/-- `pebbleDB.Get` at the buffer level: the engine's own buffer reference
is returned unchanged (no copy is taken), and the deferred
`closer.Close()` runs before the caller sees the bytes. -/
def pebbleGetRef (h : Heap) (e : EngineKV) (k : Bytes) : Heap × Option Nat :=
  (h, engineRef e.tbl k)

/- ## Helper lemmas for batch visibility -/

/-- The caller pattern of queueing a list of puts on a badger batch. -/
def badgerQueuePuts (b : BadgerBatch) : List (Bytes × Bytes) → BadgerBatch
  | [] => b
  | (k, v) :: rest => badgerQueuePuts (badgerBatchPut b k v).1 rest

/-- The caller pattern of queueing a list of puts on a pebble batch.  A
queueing step that aborts leaves the batch unchanged in this fold (the
live-batch case never aborts). -/
def pebbleQueuePuts (b : PebbleBatch) : List (Bytes × Bytes) → PebbleBatch
  | [] => b
  | (k, v) :: rest =>
      match pebbleBatchPut b k v with
      | .ok b1 => pebbleQueuePuts b1 rest
      | _ => pebbleQueuePuts b rest

/-- The batch operations a list of puts queues. -/
def putsAsOps (ps : List (Bytes × Bytes)) : List BatchOp :=
  ps.map (fun e => .put e.1 e.2)

theorem putsAsOps_cons (k v : Bytes) (tl : List (Bytes × Bytes)) :
    putsAsOps ((k, v) :: tl) = .put k v :: putsAsOps tl := rfl

theorem badgerQueuePuts_ops (ps : List (Bytes × Bytes)) (acc : List BatchOp) :
    badgerQueuePuts { ops := acc, finished := false } ps =
      { ops := acc ++ putsAsOps ps, finished := false } := by
  induction ps generalizing acc with
  | nil => simp [badgerQueuePuts, putsAsOps]
  | cons hd tl ih =>
      obtain ⟨k, v⟩ := hd
      show badgerQueuePuts { ops := acc ++ [.put k v], finished := false } tl =
        { ops := acc ++ putsAsOps ((k, v) :: tl), finished := false }
      rw [ih, putsAsOps_cons]
      simp

theorem pebbleQueuePuts_ops (ps : List (Bytes × Bytes)) (acc : List BatchOp) :
    pebbleQueuePuts { ops := acc, committed := false } ps =
      { ops := acc ++ putsAsOps ps, committed := false } := by
  induction ps generalizing acc with
  | nil => simp [pebbleQueuePuts, putsAsOps]
  | cons hd tl ih =>
      obtain ⟨k, v⟩ := hd
      show pebbleQueuePuts { ops := acc ++ [.put k v], committed := false } tl =
        { ops := acc ++ putsAsOps ((k, v) :: tl), committed := false }
      rw [ih, putsAsOps_cons]
      simp

theorem applyOps_not_mem (s : Store) (ps : List (Bytes × Bytes)) (k : Bytes)
    (h : k ∉ ps.map Prod.fst) :
    engineGet (applyOps s (putsAsOps ps)) k = engineGet s k := by
  induction ps generalizing s with
  | nil => simp [applyOps, putsAsOps]
  | cons hd tl ih =>
      obtain ⟨k0, v0⟩ := hd
      simp only [List.map_cons, List.mem_cons, not_or] at h
      rw [putsAsOps_cons]
      show engineGet (applyOps (engineSet s k0 v0) (putsAsOps tl)) k = engineGet s k
      rw [ih _ h.2]
      exact engineGet_set_ne s k0 k v0 h.1

theorem applyOps_lookup (s : Store) (ps : List (Bytes × Bytes)) (k v : Bytes)
    (hnd : (ps.map Prod.fst).Nodup) (hmem : (k, v) ∈ ps) :
    engineGet (applyOps s (putsAsOps ps)) k = some v := by
  induction ps generalizing s with
  | nil => simp at hmem
  | cons hd tl ih =>
      obtain ⟨k0, v0⟩ := hd
      simp only [List.map_cons, List.nodup_cons] at hnd
      rcases List.mem_cons.mp hmem with heq | htl
      · have hk : k = k0 := congrArg Prod.fst heq
        have hv : v = v0 := congrArg Prod.snd heq
        subst hk
        subst hv
        rw [putsAsOps_cons]
        show engineGet (applyOps (engineSet s k v) (putsAsOps tl)) k = some v
        rw [applyOps_not_mem _ _ _ (by simpa using hnd.1), engineGet_set_self]
      · rw [putsAsOps_cons]
        show engineGet (applyOps (engineSet s k0 v0) (putsAsOps tl)) k = some v
        exact ih _ hnd.2 htl

/- ## Claim theorems -/

/-- Claim C5: on an open Core, a successful `Put(ctx, k, v)` followed by a
`Get` on the same Core under a live context (and with no intervening write
to k) succeeds and returns v, in both the badger and pebble adapters. -/
theorem c5_put_then_get (ctx ctx2 : Ctx) (b : BadgerDB) (p : PebbleDB)
    (k v : Bytes)
    (_hb : (badgerDBPut ctx b k v).2 = none)
    (_hp : (pebbleDBPut ctx p k v).2 = none)
    (hlive : ctx2 = none) :
    badgerDBGet ctx2 (badgerDBPut ctx b k v).1 k = .ok v ∧
    pebbleDBGet ctx2 (pebbleDBPut ctx p k v).1 k = .ok v := by
  subst hlive
  constructor
  · simp [badgerDBGet, badgerDBPut, engineGet_set_self]
  · simp [pebbleDBGet, pebbleDBPut, engineGet_set_self]

theorem c5_put_then_get_witness :
    badgerDBGet none (badgerDBPut none { store := [] } [1] [2]).1 [1] = .ok [2] ∧
    pebbleDBGet none (pebbleDBPut none { store := [], iterFail := false } [1] [2]).1 [1] = .ok [2] :=
  c5_put_then_get none none { store := [] } { store := [], iterFail := false }
    [1] [2] rfl rfl rfl

/-- Claim C10: when the pebble engine's iterator constructor returns a
non-nil error, `pebbleDB.Scan` returns the nil interface value rather
than an iterator or any error signal (a conforming caller then
dereferences nil). -/
theorem c10_scan_nil_on_iter_fault (p : PebbleDB) (pfx : Bytes)
    (hf : p.iterFail = true) (hne : pfx ≠ []) :
    pebbleDBScan p pfx = .nilIterator := by
  cases pfx with
  | nil => exact absurd rfl hne
  | cons a rest => simp [pebbleDBScan, hf]

theorem c10_scan_nil_witness :
    pebbleDBScan { store := [], iterFail := true } [0] = .nilIterator :=
  c10_scan_nil_on_iter_fault { store := [], iterFail := true } [0] rfl (by decide)

/-- Claim C1 fails as stated: committing a fresh pebble batch reaches the
committed state, and a subsequent `Put` on that batch aborts the calling
goroutine (the native panic reaches the caller) instead of returning a
non-nil error result. -/
theorem c1_counterexample :
    pebbleBatchCommit none (pebbleDBBatch { store := [], iterFail := false })
        { store := [], iterFail := false } =
      .ok ({ ops := [], committed := true }, { store := [], iterFail := false }) ∧
    pebbleBatchPut { ops := [], committed := true } [0] [1] = .panicked ∧
    ∀ e, pebbleBatchPut { ops := [], committed := true } [0] [1] ≠ .fail e := by
  refine ⟨rfl, rfl, fun e h => ?_⟩
  rw [show pebbleBatchPut { ops := [], committed := true } [0] [1] = .panicked from rfl] at h
  exact Outcome.noConfusion h

/-- Claim C1 amended: a `Put`, `Delete` or `Commit` on an already-committed
batch never silently succeeds: the badger adapter returns a non-nil error
(its engine errors on reuse), while the pebble adapter aborts the calling
goroutine (its engine panics on reuse and the adapter adds no
committed-state guard). -/
theorem c1_amended_reuse_rejection :
    (∀ b : BadgerBatch, b.finished = true → ∀ k v ctx db,
      (badgerBatchPut b k v).2 = some .commitAfterFinish ∧
      (badgerBatchDelete b k).2 = some .commitAfterFinish ∧
      (badgerBatchCommit ctx b db).2.2 ≠ none) ∧
    (∀ b : PebbleBatch, b.committed = true → ∀ k v ctx db,
      pebbleBatchPut b k v = .panicked ∧
      pebbleBatchDelete b k = .panicked ∧
      pebbleBatchCommit ctx b db = .panicked) := by
  constructor
  · intro b hb k v ctx db
    refine ⟨by simp [badgerBatchPut, hb], by simp [badgerBatchDelete, hb], ?_⟩
    cases ctx with
    | some e => simp [badgerBatchCommit]
    | none => simp [badgerBatchCommit, hb]
  · intro b hb k v ctx db
    exact ⟨by simp [pebbleBatchPut, hb], by simp [pebbleBatchDelete, hb],
      by simp [pebbleBatchCommit, hb]⟩

theorem c1_amended_witness :
    (badgerBatchPut { ops := [], finished := true } [0] [1]).2 =
      some .commitAfterFinish ∧
    pebbleBatchPut { ops := [], committed := true } [2] [3] = .panicked :=
  ⟨(c1_amended_reuse_rejection.1 { ops := [], finished := true } rfl
      [0] [1] none { store := [] }).1,
   (c1_amended_reuse_rejection.2 { ops := [], committed := true } rfl
      [2] [3] none { store := [], iterFail := false }).1⟩

/-- Claim C8 fails as stated: with an already-cancelled context,
`badgerDB.Put` performs the engine write and returns a nil error instead
of failing fast with the context's error, and `pebbleDB.Get` likewise
ignores the context and returns the engine's value. -/
theorem c8_counterexample :
    (badgerDBPut (some .canceled) { store := [] } [1] [2]).2 = none ∧
    (badgerDBPut (some .canceled) { store := [] } [1] [2]).2 ≠ some .canceled ∧
    (badgerDBPut (some .canceled) { store := [] } [1] [2]).1.store = [([1], [2])] ∧
    pebbleDBGet (some .canceled) { store := [([3], [4])], iterFail := false } [3] =
      .ok [4] := by
  decide

/-- Claim C8 amended: under a context that is already cancelled or past
its deadline, `badgerDB.Get` and `badgerDB.Delete` fail fast with the
context's error before any engine work, while `badgerDB.Put` and all of
`pebbleDB.Put`/`Get`/`Delete` do not consult the context and behave
exactly as under a live context, proceeding with the engine call. -/
theorem c8_amended_cancellation (e : GoError) (b : BadgerDB) (p : PebbleDB)
    (k v : Bytes) :
    badgerDBGet (some e) b k = .fail e ∧
    badgerDBDelete (some e) b k = (b, some e) ∧
    badgerDBPut (some e) b k v = badgerDBPut none b k v ∧
    pebbleDBPut (some e) p k v = pebbleDBPut none p k v ∧
    pebbleDBGet (some e) p k = pebbleDBGet none p k ∧
    pebbleDBDelete (some e) p k = pebbleDBDelete none p k :=
  ⟨rfl, rfl, rfl, rfl, rfl, rfl⟩

theorem bytesLt_nil_right (x : Bytes) : bytesLt x [] = false := by
  cases x <;> simp [bytesLt]

theorem bytesLt_cons_zero (x : Byte) (xs : Bytes) :
    bytesLt (x :: xs) [0] = false := by
  cases x with
  | zero => simp [bytesLt, bytesLt_nil_right]
  | succ n => simp [bytesLt]

/-- Claim C2: evaluation at the failing input: `pebbleDB.Scan` on the
empty prefix aborts — `upbound[len(upbound)-1]++` indexes position -1 of
an empty slice — for every store state; by contrast the all-0xFF
single-byte prefix wraps the bound to `[0x00]`, and the resulting key
window `[0xFF, 0x00)` admits no key at all, so that scan yields an empty
result set rather than a corrupted range. -/
theorem c2_empty_scan_aborts :
    (∀ p : PebbleDB, pebbleDBScan p [] = .panicked) ∧
    incLast [255] = [0] ∧
    (∀ s : Store, pebbleIterEntries s [255] (incLast [255]) = []) := by
  refine ⟨fun p => rfl, rfl, fun s => ?_⟩
  rw [pebbleIterEntries]
  rw [List.filterMap_eq_nil_iff]
  intro a _
  have hfalse : (bytesLe [255] a.1 && bytesLt a.1 (incLast [255])) = false := by
    cases h1 : a.1 with
    | nil => simp [bytesLe, bytesLt, incLast]
    | cons x xs => simp [incLast, bytesLt_cons_zero]
  simp [hfalse]

/-- A freshly created badger iterator: the result of a Scan on an open
badger store, before any Next or Value call. -/
def itB0 : BadgerIteractor := badgerDBScan { store := [] } [0]

/-- A freshly created pebble iterator, exactly as pebbleDB.Scan wraps the
engine cursor: started and valid cleared, no recorded error. -/
def itP0 : PebbleIteractor :=
  { entries := [], pos := none, started := false, valid := false, err := [] }

/-- Claim C3: evaluation at the failing input: `pebbleDB.Scan` produces
the iterator `itP0` with an empty error slice, and on such a freshly
created iterator — no fault ever observed while materializing Value() —
both adapters' `Error()` index `err[len(err)-1]` on the empty slice and
abort with an index-out-of-range panic instead of returning nil. -/
theorem c3_error_on_fresh_aborts :
    pebbleDBScan { store := [], iterFail := false } [0] = .iter itP0 ∧
    itB0.err = [] ∧ itP0.err = [] ∧
    badgerIteractorError itB0 = .panicked ∧
    pebbleIteractorError itP0 = .panicked :=
  ⟨rfl, rfl, rfl, rfl, rfl⟩

/-- Claim C9: evaluation at the failing input: with key `[0]` stored in
engine-owned buffer 0 holding `[1]`, `pebbleDB.Get` hands back a
reference to that engine-owned buffer (no copy is taken, and the
deferred `closer.Close()` has already released it), so when the engine
later rewrites its buffer the caller's bytes read `[2]`, no longer the
stored value `[1]`; `badgerDB.Get` instead returns a freshly allocated
buffer outside the engine-owned set, which the same engine rewrite
leaves intact. -/
theorem c9_get_aliasing :
    (pebbleGetRef { bufs := [[1]] } { tbl := [([0], 0)] } [0]).2 = some 0 ∧
    (engineOwnedRefs { tbl := [([0], 0)] }).contains 0 = true ∧
    heapRead (engineRewrite (pebbleGetRef { bufs := [[1]] } { tbl := [([0], 0)] } [0]).1
      { tbl := [([0], 0)] } 0 [2]) 0 = [2] ∧
    (badgerGetRef { bufs := [[1]] } { tbl := [([0], 0)] } [0]).2 = some 1 ∧
    (engineOwnedRefs { tbl := [([0], 0)] }).contains 1 = false ∧
    heapRead (engineRewrite (badgerGetRef { bufs := [[1]] } { tbl := [([0], 0)] } [0]).1
      { tbl := [([0], 0)] } 0 [2]) 1 = [1] := by
  decide

/-- Claim C6: writes queued via `Batch.Put` on an uncommitted batch are
not visible to `Get` on the owning Core before `Commit` (a key absent
from the store stays NotFound while the batch holds a queued put for it),
and immediately after a successful `Commit` every queued put is visible,
in both adapters. -/
theorem c6_batch_visibility (b : BadgerDB) (p : PebbleDB)
    (ps : List (Bytes × Bytes)) (hnd : (ps.map Prod.fst).Nodup) :
    (∀ k, k ∈ ps.map Prod.fst → engineGet b.store k = none →
      badgerDBGet none b k = .fail .notFound) ∧
    (∀ k, k ∈ ps.map Prod.fst → engineGet p.store k = none →
      pebbleDBGet none p k = .fail .notFound) ∧
    (∀ b1 db1 k v, (k, v) ∈ ps →
      badgerBatchCommit none (badgerQueuePuts (badgerDBBatch b) ps) b =
        (b1, db1, none) →
      badgerDBGet none db1 k = .ok v) ∧
    (∀ b1 db1 k v, (k, v) ∈ ps →
      pebbleBatchCommit none (pebbleQueuePuts (pebbleDBBatch p) ps) p =
        .ok (b1, db1) →
      pebbleDBGet none db1 k = .ok v) := by
  refine ⟨?_, ?_, ?_, ?_⟩
  · intro k _ hk
    simp [badgerDBGet, hk]
  · intro k _ hk
    simp [pebbleDBGet, hk]
  · intro b1 db1 k v hmem hc
    rw [show badgerDBBatch b = { ops := [], finished := false } from rfl,
        badgerQueuePuts_ops] at hc
    rw [show badgerBatchCommit none
          { ops := [] ++ putsAsOps ps, finished := false } b =
        ({ ops := [] ++ putsAsOps ps, finished := true },
         { store := applyOps b.store ([] ++ putsAsOps ps) }, none) from rfl] at hc
    have hdb : ({ store := applyOps b.store ([] ++ putsAsOps ps) } : BadgerDB) = db1 :=
      congrArg (fun t => t.2.1) hc
    rw [← hdb]
    simp only [List.nil_append]
    simp [badgerDBGet, applyOps_lookup b.store ps k v hnd hmem]
  · intro b1 db1 k v hmem hc
    rw [show pebbleDBBatch p = { ops := [], committed := false } from rfl,
        pebbleQueuePuts_ops] at hc
    rw [show pebbleBatchCommit none
          { ops := [] ++ putsAsOps ps, committed := false } p =
        .ok ({ ops := [] ++ putsAsOps ps, committed := true },
             { store := applyOps p.store ([] ++ putsAsOps ps),
               iterFail := p.iterFail }) from rfl] at hc
    injection hc with hpair
    have hdb : ({ store := applyOps p.store ([] ++ putsAsOps ps),
                  iterFail := p.iterFail } : PebbleDB) = db1 :=
      congrArg Prod.snd hpair
    rw [← hdb]
    simp only [List.nil_append]
    simp [pebbleDBGet, applyOps_lookup p.store ps k v hnd hmem]

theorem c6_batch_visibility_witness :
    badgerDBGet none { store := [([1], [2])] } [1] = .ok [2] :=
  (c6_batch_visibility { store := [] } { store := [], iterFail := false }
      [([1], [2])] (by decide)).2.2.1
    { ops := [.put [1] [2]], finished := true } { store := [([1], [2])] } [1] [2]
    (by decide) (by decide)

/-- Claim C7: `Key()` and `Value()` yield a defined result only while the
iterator is positioned (`valid`): whenever `valid` is false each returns
nil — never a previously seen stale key or value — in both adapters; a
freshly created iterator is not positioned, and once `Next()` reports
false the iterator is left unpositioned. -/
theorem c7_key_value_protocol :
    (∀ it : BadgerIteractor, it.valid = false →
      badgerIteractorKey it = none ∧ (badgerIteractorValue it).2 = none) ∧
    (∀ it : PebbleIteractor, it.valid = false →
      pebbleIteractorKey it = none ∧ (pebbleIteractorValue it).2 = none) ∧
    (∀ b pfx, (badgerDBScan b pfx).valid = false) ∧
    (∀ p pfx it, pebbleDBScan p pfx = .iter it → it.valid = false) ∧
    (∀ it : BadgerIteractor, (badgerIteractorNext it).2 = false →
      (badgerIteractorNext it).1.valid = false) ∧
    (∀ it : PebbleIteractor, (pebbleIteractorNext it).2 = false →
      (pebbleIteractorNext it).1.valid = false) := by
  refine ⟨?_, ?_, ?_, ?_, ?_, ?_⟩
  · intro it h
    exact ⟨by simp [badgerIteractorKey, h], by simp [badgerIteractorValue, h]⟩
  · intro it h
    exact ⟨by simp [pebbleIteractorKey, h], by simp [pebbleIteractorValue, h]⟩
  · intro b pfx
    rfl
  · intro p pfx it hc
    cases pfx with
    | nil => exact absurd hc (by simp [pebbleDBScan])
    | cons a rest =>
        by_cases hf : p.iterFail
        · rw [show pebbleDBScan p (a :: rest) = .nilIterator from by
            simp [pebbleDBScan, hf]] at hc
          exact ScanResult.noConfusion hc
        · rw [show pebbleDBScan p (a :: rest) =
              .iter { entries := pebbleIterEntries p.store (a :: rest)
                        (incLast (a :: rest)),
                      pos := none, started := false, valid := false,
                      err := [] } from by simp [pebbleDBScan, hf]] at hc
          injection hc with h1
          subst h1
          rfl
  · intro it h
    simpa [badgerIteractorNext] using h
  · intro it h
    simpa [pebbleIteractorNext] using h

theorem c7_key_value_witness :
    badgerIteractorKey itB0 = none ∧ pebbleIteractorKey itP0 = none :=
  ⟨(c7_key_value_protocol.1 itB0 rfl).1,
   (c7_key_value_protocol.2.1 itP0 rfl).1⟩
